import Mathlib

/-!
Verification of the chunking-and-merging core of `video-transcribe`.

The Python sources are shallowly embedded: Python floats become exact
rationals (`ℚ`), fallible operations return `Except String`, and the
file-system effects of the chunk planner are made explicit through a
small record of probed facts plus a list of chunk files on disk.
-/

deriving instance DecidableEq for Except

namespace VideoTranscribe

/-- `TranscriptionSegment` from `transcribe/models.py`: one span of
transcribed speech.  `end` is a Lean keyword, so the field is `end_`. -/
structure TranscriptionSegment where
  speaker : Option String
  start : Option ℚ
  end_ : Option ℚ
  text : String
deriving DecidableEq

/-- `TranscriptionResult` from `transcribe/models.py`. -/
structure TranscriptionResult where
  text : String
  duration : Option ℚ
  segments : List TranscriptionSegment
  model_used : String
  response_format : String
deriving DecidableEq

/-- Message produced when Python compares `None` with `<`. -/
def typeErrorMsg : String := "TypeError: not supported between instances"

/-- Python `<` on the optional `start` keys used by
`all_segments.sort(key=lambda s: s.start)`: comparing `None` with
anything (either side) raises `TypeError`. -/
def pyLtStart : Option ℚ → Option ℚ → Except String Bool
  | some a, some b => .ok (decide (a < b))
  | _, _ => .error typeErrorMsg

/-- Stable insertion of a segment that originally precedes the already
sorted list: it is placed before the first element that is not strictly
smaller, mirroring a stable comparison sort keyed on `s.start`. -/
def sortInsert (x : TranscriptionSegment) :
    List TranscriptionSegment → Except String (List TranscriptionSegment)
  | [] => .ok [x]
  | y :: ys =>
    match pyLtStart y.start x.start with
    | .error e => .error e
    | .ok true =>
      match sortInsert x ys with
      | .error e => .error e
      | .ok r => .ok (y :: r)
    | .ok false => .ok (x :: y :: ys)

/-- `all_segments.sort(key=lambda s: s.start)`: a stable comparison sort
in which each comparison may raise.  A one-element (or empty) list
performs no comparison; with two or more elements every element's key
takes part in at least one comparison. -/
def pySortByStart : List TranscriptionSegment → Except String (List TranscriptionSegment)
  | [] => .ok []
  | x :: xs =>
    match pySortByStart xs with
    | .error e => .error e
    | .ok s => sortInsert x s

/-- Truthiness test `if last_speaker and last_speaker != 'A' and
original_speaker == 'A'` from `_renumber_speakers` (an empty string is
falsy in Python). -/
def chunkBoundary (last : Option String) (orig : String) : Bool :=
  match last with
  | none => false
  | some l => l != "" && l != "A" && orig == "A"

/-- Label allocation of `_renumber_speakers`: `chr(n)` for `n ≤ ord('Z')`,
afterwards the two-letter code `chr(ord('A') + idx / 26 - 1) ++
chr(ord('A') + idx % 26)` with `idx = n - ord('A')`. -/
def labelFor (n : ℕ) : String :=
  if n ≤ 90 then
    String.mk [Char.ofNat n]
  else
    let idx := n - 65
    String.mk [Char.ofNat (65 + idx / 26 - 1), Char.ofNat (65 + idx % 26)]

/-- The loop of `_renumber_speakers`, with the mutable state made
explicit: `map` is `speaker_map` (an association list with most recent
binding first, matching dict overwrite), `next` is `next_speaker_num`,
`last` is `last_speaker`. -/
def renumberAux : List TranscriptionSegment → List (String × String) → ℕ → Option String →
    List TranscriptionSegment
  | [], _, _, _ => []
  | segment :: rest, map, next, last =>
    match segment.speaker with
    | none => segment :: renumberAux rest map next last
    | some orig =>
      let map1 := if chunkBoundary last orig then [] else map
      match map1.lookup orig with
      | some newId =>
        { segment with speaker := some newId } :: renumberAux rest map1 next (some orig)
      | none =>
        let newId := labelFor next
        { segment with speaker := some newId } ::
          renumberAux rest ((orig, newId) :: map1) (next + 1) (some orig)

/-- `_renumber_speakers` from `transcribe/merger.py`: starts with an empty
map, `next_speaker_num = ord('A') = 65`, no last speaker. -/
def renumber_speakers (segments : List TranscriptionSegment) : List TranscriptionSegment :=
  renumberAux segments [] 65 none

/-- The flattening-and-adjustment loop of `merge_results` (merger.py
lines 37-50): every segment of every chunk gets its chunk's offset added
to `start` and to `end` independently, `None` staying `None`. -/
def adjustedSegments (results : List TranscriptionResult) (chunk_offsets : List ℚ) :
    List TranscriptionSegment :=
  (results.zip chunk_offsets).flatMap fun rc =>
    rc.1.segments.map fun segment =>
      { speaker := segment.speaker
        start := segment.start.map (· + rc.2)
        end_ := segment.end_.map (· + rc.2)
        text := segment.text }

/-- `merge_results` from `transcribe/merger.py`. -/
def merge_results (results : List TranscriptionResult) (chunk_offsets : List ℚ)
    (has_diarization : Bool := false) : Except String TranscriptionResult :=
  if results.length ≠ chunk_offsets.length then
    .error "Results count must match offsets count"
  else if results.isEmpty then
    .error "At least one result required for merging"
  else
    match pySortByStart (adjustedSegments results chunk_offsets) with
    | .error e => .error e
    | .ok sorted =>
      let final := if has_diarization then renumber_speakers sorted else sorted
      let combined_text := String.intercalate " " (final.map (·.text))
      let last_duration := ((results.getLast?.bind (·.duration)).getD 0)
      let total_duration := (chunk_offsets.getLast?.getD 0) + last_duration
      .ok
        { text := combined_text
          duration := some total_duration
          segments := final
          model_used := ((results.head?.map (·.model_used)).getD "")
          response_format := ((results.head?.map (·.response_format)).getD "") }

/-- One chunk-local diarized result, segments labelled `A` then `B` at
chunk-local times `0` and `5`. -/
def abResult : TranscriptionResult :=
  { text := "chunk"
    duration := some 10
    segments := [⟨some "A", some 0, some 1, "a"⟩, ⟨some "B", some 5, some 6, "b"⟩]
    model_used := "gpt-4o-transcribe-diarize"
    response_format := "diarized_json" }

/-- `k` identical `[A,B]` chunk results. -/
def abResults : ℕ → List TranscriptionResult
  | 0 => []
  | k + 1 => abResult :: abResults k

/-- Chunk offsets `o, o + 10, ..., o + 10 * (k - 1)`. -/
def abOffsets : ℕ → ℚ → List ℚ
  | 0, _ => []
  | k + 1, o => o :: abOffsets k (o + 10)

/-- The flattened, offset-adjusted segment list of `k` `[A,B]` chunks
whose first chunk starts at offset `o`. -/
def abFlat : ℕ → ℚ → List TranscriptionSegment
  | 0, _ => []
  | k + 1, o =>
    ⟨some "A", some o, some (o + 1), "a"⟩ ::
      ⟨some "B", some (o + 5), some (o + 6), "b"⟩ :: abFlat k (o + 10)

/-- `m` consecutive global labels starting at allocation counter `n`. -/
def labelsFrom : ℕ → ℕ → List String
  | _, 0 => []
  | n, m + 1 => labelFor n :: labelsFrom (n + 1) m

/-- First chunk result of the merge-timestamp-shift example: one segment
`start=0`, `end=5`. -/
def shiftResult1 : TranscriptionResult :=
  ⟨"t1", some 5, [⟨none, some 0, some 5, "x"⟩], "m", "verbose_json"⟩

/-- Second chunk result of the merge-timestamp-shift example: one segment
`start=0`, `end=5`. -/
def shiftResult2 : TranscriptionResult :=
  ⟨"t2", some 5, [⟨none, some 0, some 5, "y"⟩], "m", "verbose_json"⟩

/-- A result whose two segments include one with a `null` start. -/
def nullStartResult : TranscriptionResult :=
  ⟨"t", some 5, [⟨none, none, some 5, "x"⟩, ⟨none, some 1, some 2, "y"⟩], "m", "verbose_json"⟩

/-- A result with exactly one segment, whose start is `null`. -/
def singleNullResult : TranscriptionResult :=
  ⟨"t", some 5, [⟨none, none, none, "x"⟩], "m", "verbose_json"⟩

/-- `AudioChunk` from `audio/chunker.py`. -/
structure AudioChunk where
  path : String
  index : ℕ
  start_sec : ℚ
  end_sec : ℚ
  original_duration_sec : ℚ
  is_temp : Bool := true
deriving DecidableEq

/-- Python `int()` applied to an exact value: truncation toward zero. -/
def pyInt (q : ℚ) : ℤ :=
  if q < 0 then -(Int.floor (-q)) else Int.floor q

/-- The `while start_ms < len(audio)` loop of `_split_by_time`
(chunker.py lines 152-166), in exact milliseconds.  Each pass emits
`(start_ms, min(start_ms + chunk_duration_ms + overlap_ms, len(audio)))`,
advances by `chunk_duration_ms`, and breaks when
`len(audio) - start_ms < chunk_duration_ms // 2`.  `0 < step_ms` is part
of the guard only to justify termination; the caller establishes it
before the loop runs. -/
def splitLoop (len_ms step_ms ov_ms : ℤ) (start : ℤ) : List (ℤ × ℤ) :=
  if h : start < len_ms ∧ 0 < step_ms then
    let w := (start, min (start + step_ms + ov_ms) len_ms)
    let start1 := start + step_ms
    if len_ms - start1 < step_ms / 2 then [w]
    else w :: splitLoop len_ms step_ms ov_ms start1
  else []
termination_by (len_ms - start).toNat
decreasing_by
  omega

/-- `_split_by_time` from `audio/chunker.py`: the chunk duration comes
from the size ratio, the overlap is subtracted before the millisecond
conversion, and a non-positive step is rejected. -/
def split_by_time (len_ms : ℤ) (duration_sec file_size_mb max_size_mb overlap_sec : ℚ) :
    Except String (List (ℤ × ℤ)) :=
  let chunk_duration_sec := (max_size_mb / file_size_mb) * duration_sec
  let chunk_duration_ms := pyInt ((chunk_duration_sec - overlap_sec) * 1000)
  let overlap_ms := pyInt (overlap_sec * 1000)
  if chunk_duration_ms ≤ 0 then
    .error "Overlap exceeds calculated chunk duration. Use smaller overlap or larger max_size."
  else
    .ok (splitLoop len_ms chunk_duration_ms overlap_ms 0)

/-- Facts the chunker observes about its environment: file existence and
byte size (`Path.stat`), the `ffprobe` duration, whether the pydub load
succeeds, `len(audio)` in ms, and which chunk exports succeed. -/
structure AudioEnv where
  file_exists : Bool
  size_bytes : ℕ
  probed_duration : Except String ℚ
  load_ok : Bool
  len_ms : ℤ
  export_ok : ℕ → Bool

/-- Deterministic chunk file name `{stem}_chunk_{i:03d}{suffix}`,
abstracted to source path plus index. -/
def chunkFileName (audio_path : String) (i : ℕ) : String :=
  audio_path ++ "_chunk_" ++ toString i

/-- `Path(p).unlink(missing_ok=True)` on an explicit list of files on
disk: removes the path if present, succeeds silently otherwise. -/
def pyUnlink (files : List String) (p : String) : List String :=
  files.filter (fun f => f ≠ p)

/-- The export loop of `split_audio` (chunker.py lines 103-124).  On a
failed export of chunk `i` every already recorded chunk path is unlinked
(`for existing in chunk_results: Path(existing.path).unlink(...)`) before
the wrapped error is returned.  The second component is the list of chunk
files on disk when the call returns. -/
def exportLoop (env : AudioEnv) (audio_path : String) (duration_sec : ℚ) :
    List (ℤ × ℤ) → ℕ → List AudioChunk → List String →
    Except String (List AudioChunk) × List String
  | [], _, acc, files => (.ok acc, files)
  | (s, e) :: rest, i, acc, files =>
    if env.export_ok i then
      let p := chunkFileName audio_path i
      exportLoop env audio_path duration_sec rest (i + 1)
        (acc ++ [⟨p, i, (s : ℚ) / 1000, (e : ℚ) / 1000, duration_sec, true⟩])
        (files ++ [p])
    else
      (.error ("Failed to export chunk " ++ toString i),
        (acc.map (·.path)).foldl pyUnlink files)

/-- `split_audio` from `audio/chunker.py`, with the file-system effects
explicit.  The second component is the list of chunk files left on disk. -/
def split_audio (env : AudioEnv) (audio_path : String)
    (max_size_mb : ℚ) (overlap_sec : ℚ) :
    Except String (List AudioChunk) × List String :=
  if env.file_exists = false then
    (.error ("Audio file not found: " ++ audio_path), [])
  else
    let file_size_mb : ℚ := (env.size_bytes : ℚ) / (1024 * 1024)
    if file_size_mb ≤ max_size_mb then
      match env.probed_duration with
      | .error e => (.error ("Failed to get audio duration: " ++ e), [])
      | .ok duration =>
        (.ok [⟨audio_path, 0, 0, duration, duration, false⟩], [])
    else if env.load_ok = false then
      (.error "Failed to load audio file", [])
    else
      let duration_sec : ℚ := (env.len_ms : ℚ) / 1000
      match split_by_time env.len_ms duration_sec file_size_mb max_size_mb overlap_sec with
      | .error e => (.error e, [])
      | .ok boundaries => exportLoop env audio_path duration_sec boundaries 0 [] []

/-- `Path(chunk.path).unlink(missing_ok=True)` inside `cleanup_chunks`:
with `missing_ok=True` a missing file is not an error. -/
def unlinkMissingOk (files : List String) (p : String) : Except String (List String) :=
  .ok (files.filter (fun f => f ≠ p))

/-- `cleanup_chunks` from `audio/chunker.py`: skips `is_temp=False`
entries, unlinks the rest, and swallows any deletion failure
(`try ... except Exception: pass`), so the operation is total. -/
def cleanup_chunks (chunks : List AudioChunk) (files : List String) : List String :=
  chunks.foldl
    (fun fs chunk =>
      if chunk.is_temp = false then fs
      else
        match unlinkMissingOk fs chunk.path with
        | .ok fs1 => fs1
        | .error _ => fs)
    files

/-- Modelled from the spec: `split_audio_by_duration` is re-exported by
`audio/__init__.py` and exercised by `audio/test_chunker.py`, but its
body is absent from the sources.  Spec §4.1: the duration-explicit
variant rejects `max_duration_sec ≤ 0` with a "must be positive" error
and rejects `overlap_sec ≥ max_duration_sec` with a distinct error of the
same runtime-error class; otherwise it runs the time-based boundary
algorithm with the explicit maximum duration. -/
def split_audio_by_duration (env : AudioEnv) (audio_path : String)
    (max_duration_sec overlap_sec : ℚ) :
    Except String (List AudioChunk) :=
  if max_duration_sec ≤ 0 then
    .error "max_duration_sec must be positive"
  else if overlap_sec ≥ max_duration_sec then
    .error "Overlap must be less than max duration"
  else if env.file_exists = false then
    .error ("Audio file not found: " ++ audio_path)
  else
    let boundaries :=
      splitLoop env.len_ms (pyInt ((max_duration_sec - overlap_sec) * 1000))
        (pyInt (overlap_sec * 1000)) 0
    .ok ((boundaries.zip (List.range boundaries.length)).map fun bi =>
      ⟨chunkFileName audio_path bi.2, bi.2, (bi.1.1 : ℚ) / 1000, (bi.1.2 : ℚ) / 1000,
        (env.len_ms : ℚ) / 1000, true⟩)

/-- The chunk loop of `transcribe_chunked` (adapter.py lines 286-306):
the optional progress callback is invoked bare — under no exception
handler — before each chunk is transcribed, so a callback failure
propagates exactly like any other error. -/
def chunkLoop (transcribeChunk : String → Except String TranscriptionResult)
    (cb : Option (ℕ → ℕ → Except String Unit)) (n : ℕ) :
    List AudioChunk → ℕ → List TranscriptionResult → List ℚ →
    Except String (List TranscriptionResult × List ℚ)
  | [], _, results, offsets => .ok (results, offsets)
  | chunk :: rest, i, results, offsets => do
    let _ ← (match cb with
      | some f => f (i + 1) n
      | none => .ok ())
    let result ← transcribeChunk chunk.path
    chunkLoop transcribeChunk cb n rest (i + 1) (results ++ [result])
      (offsets ++ [chunk.start_sec])

/-- The chunked path of `transcribe_chunked` (adapter.py lines 286-315):
transcribe the chunks sequentially, then merge. -/
def transcribe_chunked (chunks : List AudioChunk)
    (transcribeChunk : String → Except String TranscriptionResult)
    (cb : Option (ℕ → ℕ → Except String Unit))
    (has_diarization : Bool) : Except String TranscriptionResult := do
  let ro ← chunkLoop transcribeChunk cb chunks.length chunks 0 [] []
  merge_results ro.1 ro.2 has_diarization


/-- A small-file environment: about 0.95 MB on disk, probed duration 5 s,
every export succeeding. -/
def sampleEnv : AudioEnv :=
  ⟨true, 1000000, .ok 5, true, 5000, fun _ => true⟩

/-- A 2 MB, 60 s environment whose chunk export succeeds for chunk 0 and
fails from chunk 1 on. -/
def failEnv : AudioEnv :=
  ⟨true, 2 * 1048576, .ok 60, true, 60000, fun i => i == 0⟩

/-! ## Helper lemmas about the split loop -/

theorem splitLoop_nil {len step ov start : ℤ} (h : len ≤ start) :
    splitLoop len step ov start = [] := by
  rw [splitLoop, dif_neg (by omega)]

theorem splitLoop_cons {len step ov start : ℤ} (h1 : start < len) (h2 : 0 < step) :
    splitLoop len step ov start =
      (start, min (start + step + ov) len) ::
        (if len - (start + step) < step / 2 then []
         else splitLoop len step ov (start + step)) := by
  rw [splitLoop, dif_pos ⟨h1, h2⟩]
  by_cases hc : len - (start + step) < step / 2
  · rw [if_pos hc, if_pos hc]
  · rw [if_neg hc, if_neg hc]

theorem splitLoop_ne_nil_iff {len step ov start : ℤ} :
    splitLoop len step ov start ≠ [] ↔ (start < len ∧ 0 < step) := by
  constructor
  · intro h
    by_contra hc
    exact h (by rw [splitLoop, dif_neg hc])
  · rintro ⟨h1, h2⟩
    rw [splitLoop_cons h1 h2]
    exact List.cons_ne_nil _ _

theorem splitLoop_getElem {len step ov : ℤ} (h2 : 0 < step) :
    ∀ (i : ℕ) (start : ℤ) (h : i < (splitLoop len step ov start).length),
      (splitLoop len step ov start)[i] =
        (start + (i : ℤ) * step, min (start + (i : ℤ) * step + step + ov) len) := by
  intro i
  induction i with
  | zero =>
    intro start h
    have hne : splitLoop len step ov start ≠ [] := by
      intro hnil
      rw [hnil] at h
      simp at h
    have h1 : start < len := (splitLoop_ne_nil_iff.mp hne).1
    simp only [splitLoop_cons h1 h2]
    simp
  | succ i ih =>
    intro start h
    have hne : splitLoop len step ov start ≠ [] := by
      intro hnil
      rw [hnil] at h
      simp at h
    have h1 : start < len := (splitLoop_ne_nil_iff.mp hne).1
    simp only [splitLoop_cons h1 h2] at h ⊢
    by_cases hc : len - (start + step) < step / 2
    · rw [if_pos hc] at h
      simp at h
    · rw [if_neg hc] at h
      simp only [if_neg hc, List.getElem_cons_succ]
      rw [ih (start + step) (by simpa using h)]
      have harith : start + step + (i : ℤ) * step = start + ((i : ℕ) + 1 : ℕ) * step := by
        push_cast
        ring
      rw [harith]

theorem splitLoop_length_two_iff {len step ov start : ℤ} (h1 : start < len) (h2 : 2 ≤ step) :
    2 ≤ (splitLoop len step ov start).length ↔ step / 2 ≤ len - (start + step) := by
  rw [splitLoop_cons h1 (by omega)]
  by_cases hc : len - (start + step) < step / 2
  · rw [if_pos hc]
    simp only [List.length_cons, List.length_nil]
    omega
  · rw [if_neg hc]
    have hlt : start + step < len := by omega
    have hne : splitLoop len step ov (start + step) ≠ [] :=
      splitLoop_ne_nil_iff.mpr ⟨hlt, by omega⟩
    have hpos : 1 ≤ (splitLoop len step ov (start + step)).length :=
      List.length_pos.mpr hne
    simp only [List.length_cons]
    omega

theorem pyInt_intCast (z : ℤ) : pyInt ((z : ℤ) : ℚ) = z := by
  unfold pyInt
  split
  · rw [← Int.cast_neg, Int.floor_intCast]
    ring
  · exact Int.floor_intCast z

/-! ## Helper lemmas about the Python sort -/

theorem sortInsert_perm (x : TranscriptionSegment) :
    ∀ (l r : List TranscriptionSegment), sortInsert x l = .ok r → r.Perm (x :: l) := by
  intro l
  induction l with
  | nil =>
    intro r h
    simp only [sortInsert, Except.ok.injEq] at h
    subst h
    exact List.Perm.refl _
  | cons y ys ih =>
    intro r h
    simp only [sortInsert] at h
    cases hb : pyLtStart y.start x.start with
    | error e => rw [hb] at h; exact absurd h (by simp)
    | ok b =>
      rw [hb] at h
      cases b with
      | true =>
        cases hr : sortInsert x ys with
        | error e => rw [hr] at h; exact absurd h (by simp)
        | ok r1 =>
          rw [hr] at h
          simp only [Except.ok.injEq] at h
          subst h
          exact (List.Perm.cons y (ih r1 hr)).trans (List.Perm.swap x y ys)
      | false =>
        simp only [Except.ok.injEq] at h
        subst h
        exact List.Perm.refl _

theorem pySortByStart_perm :
    ∀ (l s : List TranscriptionSegment), pySortByStart l = .ok s → s.Perm l := by
  intro l
  induction l with
  | nil =>
    intro s h
    simp only [pySortByStart, Except.ok.injEq] at h
    subst h
    exact List.Perm.refl _
  | cons x xs ih =>
    intro s h
    simp only [pySortByStart] at h
    cases hs : pySortByStart xs with
    | error e => rw [hs] at h; exact absurd h (by simp)
    | ok s1 =>
      rw [hs] at h
      exact (sortInsert_perm x s1 s h).trans (List.Perm.cons x (ih s1 hs))

theorem pySortByStart_of_chain :
    ∀ l : List TranscriptionSegment,
      l.Chain' (fun a b => pyLtStart b.start a.start = .ok false) →
      pySortByStart l = .ok l := by
  intro l
  induction l with
  | nil => intro _; rfl
  | cons x xs ih =>
    intro h
    cases xs with
    | nil => rfl
    | cons y ys =>
      rw [List.chain'_cons] at h
      have htail := ih h.2
      simp only [pySortByStart] at htail ⊢
      rw [htail]
      simp [sortInsert, h.1]

theorem sortInsert_none_error (x : TranscriptionSegment) (hx : x.start = none)
    (y : TranscriptionSegment) (ys : List TranscriptionSegment) :
    sortInsert x (y :: ys) = .error typeErrorMsg := by
  cases hy : y.start <;> simp [sortInsert, pyLtStart, hx, hy]

theorem sortInsert_ok_of_all_some (x : TranscriptionSegment) (hx : x.start ≠ none) :
    ∀ l : List TranscriptionSegment, (∀ y ∈ l, y.start ≠ none) →
      ∃ r, sortInsert x l = .ok r := by
  intro l
  induction l with
  | nil => intro _; exact ⟨[x], rfl⟩
  | cons y ys ih =>
    intro hl
    obtain ⟨b, hb⟩ := Option.ne_none_iff_exists'.mp hx
    obtain ⟨a, ha⟩ := Option.ne_none_iff_exists'.mp (hl y (by simp))
    have hcmp : pyLtStart y.start x.start = .ok (decide (a < b)) := by
      rw [ha, hb]; rfl
    by_cases hd : a < b
    · obtain ⟨r, hr⟩ := ih (fun z hz => hl z (by simp [hz]))
      refine ⟨y :: r, ?_⟩
      simp only [sortInsert, hcmp, decide_eq_true hd, hr]
    · refine ⟨x :: y :: ys, ?_⟩
      simp only [sortInsert, hcmp, decide_eq_false hd]

theorem pySortByStart_ok_of_all_some :
    ∀ l : List TranscriptionSegment, (∀ y ∈ l, y.start ≠ none) →
      ∃ s, pySortByStart l = .ok s ∧ s.Perm l := by
  intro l
  induction l with
  | nil => intro _; exact ⟨[], rfl, List.Perm.refl _⟩
  | cons x xs ih =>
    intro hl
    obtain ⟨s, hs, hperm⟩ := ih (fun z hz => hl z (by simp [hz]))
    obtain ⟨r, hr⟩ := sortInsert_ok_of_all_some x (hl x (by simp)) s
      (fun z hz => hl z (by simp [hperm.mem_iff.mp hz]))
    refine ⟨r, ?_, ?_⟩
    · simp only [pySortByStart, hs, hr]
    · exact (sortInsert_perm x s r hr).trans (List.Perm.cons x hperm)

theorem pySortByStart_error_of_none :
    ∀ l : List TranscriptionSegment, 2 ≤ l.length → (∃ x ∈ l, x.start = none) →
      pySortByStart l = .error typeErrorMsg := by
  intro l
  induction l with
  | nil => intro h; simp at h
  | cons x xs ih =>
    intro h2 hn
    simp only [pySortByStart]
    by_cases hxs : ∃ y ∈ xs, y.start = none
    · match xs, hxs with
      | [y], ⟨z, hz, hzn⟩ =>
        simp only [List.mem_singleton] at hz
        subst hz
        simp only [pySortByStart, sortInsert]
        cases hx : x.start <;> simp [pyLtStart, hzn]
      | y1 :: y2 :: ys, hxs =>
        rw [ih (by simp) hxs]
    · push_neg at hxs
      have hx : x.start = none := by
        obtain ⟨z, hz, hzn⟩ := hn
        rcases List.mem_cons.mp hz with rfl | hzxs
        · exact hzn
        · exact absurd hzn (hxs z hzxs)
      obtain ⟨s, hs, hperm⟩ := pySortByStart_ok_of_all_some xs hxs
      rw [hs]
      have hsne : s ≠ [] := by
        intro hnil
        have hlen := hperm.length_eq
        rw [hnil] at hlen
        simp only [List.length_nil] at hlen
        simp only [List.length_cons] at h2
        omega
      match s, hsne with
      | y :: ys, _ => exact sortInsert_none_error x hx y ys


/-! ## Helper lemmas about speaker renumbering and merging -/

theorem renumberAux_preserves :
    ∀ (l : List TranscriptionSegment) (map : List (String × String)) (next : ℕ)
      (last : Option String),
      (renumberAux l map next last).map (fun s => (s.start, s.end_, s.text)) =
        l.map (fun s => (s.start, s.end_, s.text)) := by
  intro l
  induction l with
  | nil => intro map next last; rfl
  | cons segment rest ih =>
    intro map next last
    cases hsp : segment.speaker with
    | none => simp [renumberAux, hsp, ih]
    | some o =>
      simp only [renumberAux, hsp]
      split <;> simp [ih]

theorem renumberAux_abFlat :
    ∀ (k : ℕ) (o : ℚ) (next : ℕ) (map : List (String × String)) (last : Option String),
      (last = some "B" ∨ (map = [] ∧ last = none)) →
      (renumberAux (abFlat k o) map next last).map (·.speaker) =
        (labelsFrom next (2 * k)).map some := by
  intro k
  induction k with
  | zero =>
    intro o next map last _
    simp [abFlat, labelsFrom, renumberAux]
  | succ k ih =>
    intro o next map last hlast
    have hmap1 : (if chunkBoundary last "A" then [] else map) = ([] : List (String × String)) := by
      rcases hlast with h | ⟨hm, hl⟩
      · subst h; rfl
      · subst hm; subst hl; rfl
    rw [Nat.mul_succ]
    simp only [abFlat, renumberAux, hmap1]
    have hbB : chunkBoundary (some "A") "B" = false := by decide
    have hlkB : List.lookup "B" [("A", labelFor next)] = none := by
      simp [List.lookup]
    simp only [List.lookup, hbB, if_neg, Bool.false_eq_true, ite_false, hlkB,
      (by decide : ("B" == "A") = false)]
    rw [List.map_cons, List.map_cons, ih (o + 10) (next + 1 + 1) _ (some "B") (Or.inl rfl)]
    simp [labelsFrom]

theorem abResults_length (k : ℕ) : (abResults k).length = k := by
  induction k with
  | zero => rfl
  | succ k ih => simp [abResults, ih]

theorem abOffsets_length : ∀ (k : ℕ) (o : ℚ), (abOffsets k o).length = k := by
  intro k
  induction k with
  | zero => intro o; rfl
  | succ k ih => intro o; simp [abOffsets, ih]

theorem adjustedSegments_ab :
    ∀ (k : ℕ) (o : ℚ), adjustedSegments (abResults k) (abOffsets k o) = abFlat k o := by
  intro k
  induction k with
  | zero => intro o; rfl
  | succ k ih =>
    intro o
    simp only [abResults, abOffsets, abFlat, adjustedSegments] at ih ⊢
    rw [List.zip_cons_cons, List.flatMap_cons, ih (o + 10)]
    simp [abResult]
    exact ⟨by ring, by ring, by ring⟩

theorem abFlat_chain :
    ∀ (k : ℕ) (o : ℚ),
      (abFlat k o).Chain' (fun a b => pyLtStart b.start a.start = .ok false) := by
  intro k
  induction k with
  | zero => intro o; simp [abFlat]
  | succ k ih =>
    intro o
    simp only [abFlat]
    rw [List.chain'_cons]
    constructor
    · simp only [pyLtStart, Except.ok.injEq, decide_eq_false_iff_not, not_lt]
      linarith
    · rw [List.chain'_cons']
      refine ⟨?_, ih (o + 10)⟩
      intro z hz
      cases k with
      | zero => simp [abFlat] at hz
      | succ k2 =>
        simp only [abFlat, List.head?_cons, Option.mem_some_iff] at hz
        subst hz
        simp only [pyLtStart, Except.ok.injEq, decide_eq_false_iff_not, not_lt]
        linarith

theorem merge_ab (k : ℕ) (hk : 1 ≤ k) :
    (merge_results (abResults k) (abOffsets k 0) true).map
        (fun r => r.segments.map (·.speaker)) =
      .ok ((labelsFrom 65 (2 * k)).map some) := by
  have hne : (abResults k).isEmpty = false := by
    match k, hk with
    | k + 1, _ => simp [abResults]
  unfold merge_results
  rw [if_neg (by simp [abResults_length, abOffsets_length])]
  rw [if_neg (by simp [hne])]
  rw [adjustedSegments_ab, pySortByStart_of_chain _ (abFlat_chain k 0)]
  simp only [if_true, Except.map]
  rw [renumber_speakers, renumberAux_abFlat k 0 65 [] none (Or.inr ⟨rfl, rfl⟩)]

/-- C1: with `has_diarization=true`, the renumbering walk over the
time-sorted segments clears its label map whenever the previous original
label was not "A" and the current one is "A", so `k ≥ 1` chunks each
labelled `[A,B]` in time order merge to global labels `A,B,C,D,...` in
allocation order over the sequence `A..Z, AA, AB, ...`; for 14 such
chunks (28 segments) the labels are `A..Z` followed by `AA, AB`. -/
theorem C1_speaker_renumbering (k : ℕ) (hk : 1 ≤ k) :
    (merge_results (abResults k) (abOffsets k 0) true).map
        (fun r => r.segments.map (·.speaker)) =
      .ok ((labelsFrom 65 (2 * k)).map some) ∧
    (merge_results (abResults 14) (abOffsets 14 0) true).map
        (fun r => r.segments.map (·.speaker)) =
      .ok (["A", "B", "C", "D", "E", "F", "G", "H", "I", "J", "K", "L", "M",
            "N", "O", "P", "Q", "R", "S", "T", "U", "V", "W", "X", "Y", "Z",
            "AA", "AB"].map some) := by
  refine ⟨merge_ab k hk, ?_⟩
  rw [merge_ab 14 (by norm_num)]
  decide

theorem C1_witness :
    1 ≤ 1 ∧
      ((merge_results (abResults 1) (abOffsets 1 0) true).map
          (fun r => r.segments.map (·.speaker)) =
        .ok ((labelsFrom 65 (2 * 1)).map some) ∧
      (merge_results (abResults 14) (abOffsets 14 0) true).map
          (fun r => r.segments.map (·.speaker)) =
        .ok (["A", "B", "C", "D", "E", "F", "G", "H", "I", "J", "K", "L", "M",
              "N", "O", "P", "Q", "R", "S", "T", "U", "V", "W", "X", "Y", "Z",
              "AA", "AB"].map some)) :=
  ⟨le_refl 1, C1_speaker_renumbering 1 (le_refl 1)⟩

theorem adjustedSegments_map_proj (results : List TranscriptionResult) (offsets : List ℚ) :
    (adjustedSegments results offsets).map (fun s => (s.start, s.end_, s.text)) =
      (results.zip offsets).flatMap fun rc =>
        rc.1.segments.map fun s =>
          (s.start.map (· + rc.2), s.end_.map (· + rc.2), s.text) := by
  simp [adjustedSegments, List.map_flatMap, List.map_map]
  rfl

/-- C4: every input segment of a valid `merge_results` call appears in
the output with its chunk's offset added to `start` and `end`
independently (a `null` start or end stays `null`, via `Option.map`);
two chunks at offsets `[0, 10]`, each with one segment `start=0,end=5`,
merge to segments `(0,5)` then `(10,15)` in that order. -/
theorem C4_timestamp_shift :
    (∀ (results : List TranscriptionResult) (offsets : List ℚ) (d : Bool)
        (r : TranscriptionResult),
        results.length = offsets.length → results ≠ [] →
        merge_results results offsets d = .ok r →
        (r.segments.map fun s => (s.start, s.end_, s.text)).Perm
          ((results.zip offsets).flatMap fun rc =>
            rc.1.segments.map fun s =>
              (s.start.map (· + rc.2), s.end_.map (· + rc.2), s.text))) ∧
    (merge_results [shiftResult1, shiftResult2] [0, 10] false).map
        (fun r => r.segments.map fun s => (s.start, s.end_)) =
      .ok [(some 0, some 5), (some 10, some 15)] := by
  constructor
  · intro results offsets d r hlen hne hok
    unfold merge_results at hok
    rw [if_neg (by simp [hlen])] at hok
    rw [if_neg (by simp [List.isEmpty_iff, hne])] at hok
    cases hs : pySortByStart (adjustedSegments results offsets) with
    | error e => rw [hs] at hok; exact absurd hok (by simp)
    | ok sorted =>
      rw [hs] at hok
      simp only [Except.ok.injEq] at hok
      subst hok
      have hperm := pySortByStart_perm _ _ hs
      have hproj :
          ((if d = true then renumber_speakers sorted else sorted).map
              fun s => (s.start, s.end_, s.text)) =
            sorted.map fun s => (s.start, s.end_, s.text) := by
        cases d
        · simp
        · simp [renumber_speakers, renumberAux_preserves]
      rw [← adjustedSegments_map_proj]
      simpa [hproj] using hperm.map (fun s => (s.start, s.end_, s.text))
  · norm_num [merge_results, adjustedSegments, pySortByStart, sortInsert, pyLtStart,
      shiftResult1, shiftResult2, Except.map]

theorem adjustedSegments_length :
    ∀ (results : List TranscriptionResult) (offsets : List ℚ),
      results.length = offsets.length →
      (adjustedSegments results offsets).length = (results.flatMap (·.segments)).length := by
  intro results
  induction results with
  | nil => intro offsets _; rfl
  | cons r rs ih =>
    intro offsets hlen
    cases offsets with
    | nil => simp at hlen
    | cons o os =>
      simp only [List.length_cons, Nat.add_right_cancel_iff] at hlen
      simp [adjustedSegments, List.flatMap_cons] at ih ⊢
      exact ih os hlen

theorem adjustedSegments_none_mem :
    ∀ (results : List TranscriptionResult) (offsets : List ℚ),
      results.length = offsets.length →
      (∃ res ∈ results, ∃ s ∈ res.segments, s.start = none) →
      ∃ t ∈ adjustedSegments results offsets, t.start = none := by
  intro results
  induction results with
  | nil => intro offsets _ h; simp at h
  | cons r rs ih =>
    intro offsets hlen hex
    cases offsets with
    | nil => simp at hlen
    | cons o os =>
      simp only [List.length_cons, Nat.add_right_cancel_iff] at hlen
      obtain ⟨res, hres, s, hs, hsn⟩ := hex
      rcases List.mem_cons.mp hres with rfl | hres2
      · refine ⟨⟨s.speaker, none, s.end_.map (· + o), s.text⟩, ?_, rfl⟩
        simp only [adjustedSegments, List.zip_cons_cons, List.flatMap_cons, List.mem_append]
        left
        refine List.mem_map.mpr ⟨s, hs, ?_⟩
        simp [hsn]
      · obtain ⟨t, ht, htn⟩ := ih os hlen ⟨res, hres2, s, hs, hsn⟩
        refine ⟨t, ?_, htn⟩
        simp only [adjustedSegments, List.zip_cons_cons, List.flatMap_cons, List.mem_append]
        right
        exact ht

/-- C10: whenever a valid `merge_results` call's inputs flatten to two or
more segments at least one of which has `start = null`, the sort-by-start
step raises (`None` is not comparable) and `merge_results` returns that
error instead of a merged result; with exactly one flattened segment a
`null` start is tolerated and the merge succeeds. -/
theorem C10_null_start_sort :
    (∀ (results : List TranscriptionResult) (offsets : List ℚ) (d : Bool),
        results.length = offsets.length → results ≠ [] →
        2 ≤ (results.flatMap (·.segments)).length →
        (∃ res ∈ results, ∃ s ∈ res.segments, s.start = none) →
        merge_results results offsets d = .error typeErrorMsg) ∧
    (∀ (results : List TranscriptionResult) (offsets : List ℚ) (d : Bool),
        results.length = offsets.length → results ≠ [] →
        (results.flatMap (·.segments)).length = 1 →
        (merge_results results offsets d).isOk = true) := by
  constructor
  · intro results offsets d hlen hne h2 hex
    unfold merge_results
    rw [if_neg (by simp [hlen])]
    rw [if_neg (by simp [List.isEmpty_iff, hne])]
    rw [pySortByStart_error_of_none _
      (by rw [adjustedSegments_length results offsets hlen]; exact h2)
      (adjustedSegments_none_mem results offsets hlen hex)]
  · intro results offsets d hlen hne h1
    unfold merge_results
    rw [if_neg (by simp [hlen])]
    rw [if_neg (by simp [List.isEmpty_iff, hne])]
    have hadj : (adjustedSegments results offsets).length = 1 := by
      rw [adjustedSegments_length results offsets hlen]
      exact h1
    obtain ⟨x, hx⟩ := List.length_eq_one.mp hadj
    rw [hx]
    simp only [pySortByStart, sortInsert]
    rfl

theorem C4_witness :
    merge_results [shiftResult1, shiftResult2] [0, 10] false =
      .ok ⟨"x y", some 15,
        [⟨none, some 0, some 5, "x"⟩, ⟨none, some 10, some 15, "y"⟩], "m", "verbose_json"⟩ ∧
    ((⟨"x y", some 15,
        [⟨none, some 0, some 5, "x"⟩, ⟨none, some 10, some 15, "y"⟩], "m",
        "verbose_json"⟩ : TranscriptionResult).segments.map
          fun s => (s.start, s.end_, s.text)).Perm
      (([shiftResult1, shiftResult2].zip [0, 10]).flatMap fun rc =>
        rc.1.segments.map fun s =>
          (s.start.map (· + rc.2), s.end_.map (· + rc.2), s.text)) := by
  have hok : merge_results [shiftResult1, shiftResult2] [0, 10] false =
      .ok ⟨"x y", some 15,
        [⟨none, some 0, some 5, "x"⟩, ⟨none, some 10, some 15, "y"⟩], "m", "verbose_json"⟩ := by
    norm_num [merge_results, adjustedSegments, pySortByStart, sortInsert, pyLtStart,
      shiftResult1, shiftResult2, String.intercalate]
    decide
  exact ⟨hok, C4_timestamp_shift.1 [shiftResult1, shiftResult2] [0, 10] false _
    (by norm_num) (by simp) hok⟩

theorem C10_witness :
    merge_results [nullStartResult] [0] false = .error typeErrorMsg ∧
    (merge_results [singleNullResult] [0] false).isOk = true := by
  constructor
  · exact C10_null_start_sort.1 [nullStartResult] [0] false rfl (by simp)
      (by decide)
      ⟨nullStartResult, by simp, ⟨none, none, some 5, "x"⟩, by simp [nullStartResult], rfl⟩
  · exact C10_null_start_sort.2 [singleNullResult] [0] false rfl (by simp) (by decide)

theorem split_by_time_eq (len_ms : ℤ) (dur fsz msz ov : ℚ) (M V : ℤ)
    (hM : msz / fsz * dur * 1000 = (M : ℚ)) (hV : ov * 1000 = (V : ℚ))
    (hstep : 0 < M - V) :
    split_by_time len_ms dur fsz msz ov = .ok (splitLoop len_ms (M - V) V 0) := by
  have h1 : (msz / fsz * dur - ov) * 1000 = ((M - V : ℤ) : ℚ) := by
    push_cast
    rw [← hM, ← hV]
    ring
  simp only [split_by_time, h1, hV, pyInt_intCast]
  rw [if_neg (by omega)]

/-- C2: for a file over the size threshold the planner derives the
maximum chunk duration from the size ratio
(`max_chunk_duration = threshold / file_size * total_duration`, here `M`
milliseconds with step `M - V` after subtracting the overlap `V`), emits
windows `[cursor, min(cursor + max_chunk_duration, total_duration)]`
advancing the cursor by the step, and every pair of consecutive windows
shares exactly `overlap` at the boundary except when the later window is
shortened by hitting `total_duration`. -/
theorem C2_size_ratio_boundaries (len_ms : ℤ) (dur fsz msz ov : ℚ) (M V : ℤ)
    (hsize : msz < fsz)
    (hM : msz / fsz * dur * 1000 = (M : ℚ)) (hV : ov * 1000 = (V : ℚ))
    (hstep : 0 < M - V) :
    ∃ W, split_by_time len_ms dur fsz msz ov = .ok W ∧
      (∀ (i : ℕ) (h : i < W.length),
        W[i] = ((i : ℤ) * (M - V), min ((i : ℤ) * (M - V) + M) len_ms)) ∧
      (∀ (i : ℕ) (h1 : i < W.length) (h2 : i + 1 < W.length),
        ((i : ℤ) + 1) * (M - V) + M ≤ len_ms →
        (W[i]).2 - (W[i + 1]).1 = V) := by
  refine ⟨splitLoop len_ms (M - V) V 0,
    split_by_time_eq len_ms dur fsz msz ov M V hM hV hstep, ?_, ?_⟩
  · intro i h
    rw [splitLoop_getElem hstep i 0 h]
    rw [show (0 : ℤ) + (i : ℤ) * (M - V) = (i : ℤ) * (M - V) from by ring,
      show (i : ℤ) * (M - V) + (M - V) + V = (i : ℤ) * (M - V) + M from by ring]
  · intro i h1 h2 hcap
    rw [splitLoop_getElem hstep i 0 h1, splitLoop_getElem hstep (i + 1) 0 h2]
    have ha : (0 : ℤ) + (i : ℤ) * (M - V) + (M - V) + V = ((i : ℤ) + 1) * (M - V) + V := by
      ring
    have hle : (0 : ℤ) + (i : ℤ) * (M - V) + (M - V) + V ≤ len_ms := by
      rw [ha]
      have hVM : V ≤ M := by omega
      linarith
    rw [min_eq_left hle]
    push_cast
    ring

/-- C3 counterexample: the claim says a further window is emitted iff
the remaining duration is at least half of `max_chunk_duration`.  For a
16 s file with `max_chunk_duration = 14` s and overlap 4 s (step 10 s),
after the first window the remaining 6 s is below half of 14 s, yet the
code does emit a second window: the claimed iff is false here. -/
theorem C3_counterexample :
    split_by_time 16000 16 8 7 4 = .ok [(0, 14000), (10000, 16000)] ∧
    ¬ (2 ≤ ([(0, 14000), (10000, 16000)] : List (ℤ × ℤ)).length ↔
        14000 / 2 ≤ (16000 : ℤ) - (0 + 10000)) := by
  constructor
  · rw [split_by_time_eq 16000 16 8 7 4 14000 4000 (by norm_num) (by norm_num) (by norm_num)]
    norm_num [splitLoop_cons, splitLoop_nil, Int.min_def]
  · decide

/-- C3 (amended): in `_split_by_time`'s loop the small-tail cutoff
compares the remaining duration against half of the *step*
(`chunk_duration_ms = max_chunk_duration - overlap`, integer-divided by
two), not half of `max_chunk_duration`: at any active cursor a further
window is emitted iff `total - (cursor + step) ≥ step / 2`. -/
theorem C3_amended_small_tail (len_ms : ℤ) (dur fsz msz ov : ℚ) (M V : ℤ)
    (hM : msz / fsz * dur * 1000 = (M : ℚ)) (hV : ov * 1000 = (V : ℚ))
    (hstep2 : 2 ≤ M - V) (c : ℤ) (hc : c < len_ms) :
    split_by_time len_ms dur fsz msz ov = .ok (splitLoop len_ms (M - V) V 0) ∧
    (2 ≤ (splitLoop len_ms (M - V) V c).length ↔
      (M - V) / 2 ≤ len_ms - (c + (M - V))) :=
  ⟨split_by_time_eq len_ms dur fsz msz ov M V hM hV (by omega),
    splitLoop_length_two_iff hc hstep2⟩


theorem C2_witness :
    ∃ W, split_by_time 90000 90 3 1 2 = .ok W ∧
      (∀ (i : ℕ) (h : i < W.length),
        W[i] = ((i : ℤ) * (30000 - 2000), min ((i : ℤ) * (30000 - 2000) + 30000) 90000)) ∧
      (∀ (i : ℕ) (h1 : i < W.length) (h2 : i + 1 < W.length),
        ((i : ℤ) + 1) * (30000 - 2000) + 30000 ≤ 90000 →
        (W[i]).2 - (W[i + 1]).1 = 2000) :=
  C2_size_ratio_boundaries 90000 90 3 1 2 30000 2000 (by norm_num) (by norm_num)
    (by norm_num) (by norm_num)

theorem C3_amended_witness :
    split_by_time 16000 16 8 7 4 = .ok (splitLoop 16000 (14000 - 4000) 4000 0) ∧
    (2 ≤ (splitLoop 16000 (14000 - 4000) 4000 10000).length ↔
      ((14000 : ℤ) - 4000) / 2 ≤ 16000 - (10000 + (14000 - 4000))) :=
  C3_amended_small_tail 16000 16 8 7 4 14000 4000 (by norm_num) (by norm_num)
    (by norm_num) 10000 (by norm_num)

/-- C5: for an existing file whose size is at or under the threshold,
`split_audio` returns exactly one chunk whose path is the original input
path, `is_temp = false`, `start_sec = 0`, `end_sec` the probed duration,
and leaves no chunk files on disk (no physical split). -/
theorem C5_no_split (env : AudioEnv) (p : String) (msz ov d : ℚ)
    (hex : env.file_exists = true)
    (hsize : (env.size_bytes : ℚ) / (1024 * 1024) ≤ msz)
    (hdur : env.probed_duration = .ok d) :
    split_audio env p msz ov = (.ok [⟨p, 0, 0, d, d, false⟩], []) := by
  simp [split_audio, hex, hsize, hdur]

theorem C5_witness :
    split_audio sampleEnv "audio.mp3" 20 2 =
      (.ok [⟨"audio.mp3", 0, 0, 5, 5, false⟩], []) :=
  C5_no_split sampleEnv "audio.mp3" 20 2 5 rfl (by norm_num [sampleEnv]) rfl

theorem foldl_pyUnlink_nil :
    ∀ (ps : List String) (fs : List String), (∀ f ∈ fs, f ∈ ps) →
      List.foldl pyUnlink fs ps = [] := by
  intro ps
  induction ps with
  | nil =>
    intro fs h
    simp only [List.foldl_nil]
    exact List.eq_nil_iff_forall_not_mem.mpr (fun a ha => by simpa using h a ha)
  | cons p ps ih =>
    intro fs h
    simp only [List.foldl_cons]
    refine ih (pyUnlink fs p) ?_
    intro f hf
    simp only [pyUnlink, List.mem_filter, decide_eq_true_eq] at hf
    rcases List.mem_cons.mp (h f hf.1) with rfl | hmem
    · exact absurd rfl hf.2
    · exact hmem

theorem exportLoop_error_empty :
    ∀ (bs : List (ℤ × ℤ)) (env : AudioEnv) (p : String) (dur : ℚ) (i : ℕ)
      (acc : List AudioChunk) (files : List String) (e : String) (fs2 : List String),
      (∀ f ∈ files, f ∈ acc.map (·.path)) →
      exportLoop env p dur bs i acc files = (.error e, fs2) → fs2 = [] := by
  intro bs
  induction bs with
  | nil =>
    intro env p dur i acc files e fs2 _ h
    simp only [exportLoop, Prod.mk.injEq] at h
    exact absurd h.1 (by simp)
  | cons b rest ih =>
    intro env p dur i acc files e fs2 hinv h
    obtain ⟨s, t⟩ := b
    simp only [exportLoop] at h
    by_cases hexp : env.export_ok i = true
    · rw [if_pos hexp] at h
      refine ih env p dur (i + 1) _ _ e fs2 ?_ h
      intro f hf
      rcases List.mem_append.mp hf with hf1 | hf2
      · simpa using Or.inl (by simpa using hinv f hf1)
      · simp at hf2
        simp [hf2]
    · rw [if_neg hexp] at h
      simp only [Prod.mk.injEq] at h
      rw [← h.2]
      exact foldl_pyUnlink_nil _ files hinv

/-- C7: whenever `split_audio` fails — in particular when exporting
chunk `i` fails after chunks `0..i-1` were already written — every
already-exported chunk file is deleted before the error is returned, so
no partial chunk output remains on disk. -/
theorem C7_export_rollback (env : AudioEnv) (p : String) (msz ov : ℚ)
    (herr : (split_audio env p msz ov).1.isOk = false) :
    (split_audio env p msz ov).2 = [] := by
  unfold split_audio at herr ⊢
  by_cases hex : env.file_exists = false
  · rw [if_pos hex]
  · rw [if_neg hex] at herr ⊢
    by_cases hsz : (env.size_bytes : ℚ) / (1024 * 1024) ≤ msz
    · rw [if_pos hsz] at herr ⊢
      cases hd : env.probed_duration with
      | error e => rfl
      | ok d => rfl
    · rw [if_neg hsz] at herr ⊢
      by_cases hld : env.load_ok = false
      · rw [if_pos hld]
      · rw [if_neg hld] at herr ⊢
        dsimp only at herr ⊢
        cases hsb : split_by_time env.len_ms ((env.len_ms : ℚ) / 1000)
            ((env.size_bytes : ℚ) / (1024 * 1024)) msz ov with
        | error e => rfl
        | ok bs =>
          cases hel : exportLoop env p ((env.len_ms : ℚ) / 1000) bs 0 [] [] with
          | mk r fs =>
            simp only [hel] at herr ⊢
            cases r with
            | ok cs => simp [hsb, hel, Except.toBool] at herr
            | error e =>
              exact exportLoop_error_empty bs env p _ 0 [] [] e fs (by simp) hel

theorem exportFail_eval (dur : ℚ) :
    exportLoop failEnv "a.mp3" dur [(0, 30000), (28000, 58000)] 0 [] [] =
      (.error "Failed to export chunk 1", []) := by
  simp only [exportLoop, failEnv]
  norm_num [chunkFileName, pyUnlink]
  rfl

theorem split_audio_failEnv_eval :
    split_audio failEnv "a.mp3" 1 2 = (.error "Failed to export chunk 1", []) := by
  have hsb : split_by_time 60000 (((60000 : ℤ) : ℚ) / 1000)
      (((2 * 1048576 : ℕ) : ℚ) / (1024 * 1024)) 1 2 =
      .ok [(0, 30000), (28000, 58000)] := by
    rw [split_by_time_eq _ _ _ _ _ 30000 2000 (by norm_num) (by norm_num) (by norm_num)]
    norm_num [splitLoop_cons, splitLoop_nil, Int.min_def]
  simp only [split_audio, failEnv]
  rw [if_neg (by decide)]
  rw [if_neg (by norm_num)]
  rw [if_neg (by decide)]
  rw [hsb]
  exact exportFail_eval _

theorem C7_witness :
    (split_audio failEnv "a.mp3" 1 2).1.isOk = false ∧
      (split_audio failEnv "a.mp3" 1 2).2 = [] :=
  ⟨by rw [split_audio_failEnv_eval]; rfl,
    C7_export_rollback failEnv "a.mp3" 1 2 (by rw [split_audio_failEnv_eval]; rfl)⟩


theorem cleanup_chunks_filter :
    ∀ (chunks : List AudioChunk) (files : List String),
      cleanup_chunks chunks files =
        files.filter (fun f => !(chunks.any (fun c => c.is_temp && c.path == f))) := by
  intro chunks
  induction chunks with
  | nil => intro files; simp [cleanup_chunks]
  | cons c cs ih =>
    intro files
    simp only [cleanup_chunks, List.foldl_cons] at ih ⊢
    cases hct : c.is_temp with
    | false =>
      rw [if_pos rfl, ih files]
      apply List.filter_congr
      intro f _
      simp [hct]
    | true =>
      rw [if_neg (by simp)]
      rw [ih _]
      simp only [unlinkMissingOk, List.filter_filter]
      apply List.filter_congr
      intro f _
      by_cases hf : c.path = f
      · simp [hf, hct]
      · simp [hf, hct, Ne.symm hf]

/-- C8: `cleanup_chunks` deletes exactly the entries with
`is_temp = true`, leaves every `is_temp = false` entry's file untouched,
treats an already-missing file as success, and — being a total function
because the source swallows every deletion failure — never raises;
calling it repeatedly is safe (idempotent), and the empty list is a
no-op. -/
theorem C8_cleanup_best_effort :
    (∀ (chunks : List AudioChunk) (files : List String) (f : String),
        f ∈ cleanup_chunks chunks files ↔
          f ∈ files ∧ ¬ ∃ c ∈ chunks, c.is_temp = true ∧ c.path = f) ∧
    (∀ (chunks : List AudioChunk) (files : List String),
        cleanup_chunks chunks (cleanup_chunks chunks files) = cleanup_chunks chunks files) ∧
    (∀ files : List String, cleanup_chunks [] files = files) := by
  refine ⟨?_, ?_, fun files => rfl⟩
  · intro chunks files f
    rw [cleanup_chunks_filter]
    simp [List.mem_filter, List.any_eq_true]
  · intro chunks files
    simp only [cleanup_chunks_filter, List.filter_filter, Bool.and_self]

/-- C6: the duration-explicit planner rejects `max_duration_sec ≤ 0`
with a distinct "must be positive" error, and raises one and the same
error for every `overlap_sec ≥ max_duration_sec`, whether equal or
strictly greater.  (`split_audio_by_duration` is modelled from the spec:
its body is absent from the sources.) -/
theorem C6_duration_validation (env : AudioEnv) (p : String) (maxd ov : ℚ) :
    (maxd ≤ 0 →
      split_audio_by_duration env p maxd ov = .error "max_duration_sec must be positive") ∧
    (0 < maxd → maxd ≤ ov →
      split_audio_by_duration env p maxd ov = .error "Overlap must be less than max duration") := by
  constructor
  · intro h
    simp [split_audio_by_duration, h]
  · intro h1 h2
    rw [split_audio_by_duration, if_neg (by linarith), if_pos (ge_iff_le.mpr h2)]

theorem C6_witness :
    split_audio_by_duration sampleEnv "a.mp3" 0 1 = .error "max_duration_sec must be positive" ∧
    split_audio_by_duration sampleEnv "a.mp3" 5 5 =
      .error "Overlap must be less than max duration" ∧
    split_audio_by_duration sampleEnv "a.mp3" 5 6 =
      .error "Overlap must be less than max duration" :=
  ⟨(C6_duration_validation sampleEnv "a.mp3" 0 1).1 (by norm_num),
    (C6_duration_validation sampleEnv "a.mp3" 5 5).2 (by norm_num) (by norm_num),
    (C6_duration_validation sampleEnv "a.mp3" 5 6).2 (by norm_num) (by norm_num)⟩

/-- C9: contrary to the claim, the progress callback is invoked under no
exception handler in `transcribe_chunked`, so a callback that raises
aborts the pipeline before the chunk is transcribed and before any
merge: with one chunk and a callback that always fails, the whole call
returns the callback's error instead of a transcription result. -/
theorem C9_callback_exception_aborts :
    transcribe_chunked [⟨"c0", 0, 0, 5, 5, true⟩]
        (fun _ => .ok abResult) (some fun _ _ => .error "callback failure") false =
      .error "callback failure" := rfl
end VideoTranscribe
